import Mathlib

/-!
Shallow embedding of `src/main.py` (PDF-Multimerger): a batch tool that tiles
N source pages per output sheet in a near-square grid, runs per-chunk
compositing, and concatenates the results into one merged document.

Floats in the Python source are modelled as exact rationals (`ℚ`), Python
ints as `Int`/`Nat`, raised exceptions as `Except`, and the pypdf
`Transformation` as an affine matrix over `ℚ`.
-/

namespace PDFMultimerger

instance {ε α : Type} [DecidableEq ε] [DecidableEq α] : DecidableEq (Except ε α) := fun
  | .ok a, .ok b =>
      if h : a = b then .isTrue (by rw [h])
      else .isFalse (by intro hh; injection hh; contradiction)
  | .ok _, .error _ => .isFalse (by intro h; injection h)
  | .error _, .ok _ => .isFalse (by intro h; injection h)
  | .error e, .error f =>
      if h : e = f then .isTrue (by rw [h])
      else .isFalse (by intro hh; injection hh; contradiction)

/-- Upward search for the least `c' ≥ c` with `n ≤ c' * c'`, with enough fuel. -/
def ceilSqrtFrom (n : Nat) : Nat → Nat → Nat
  | c, 0 => c
  | c, fuel + 1 => if n ≤ c * c then c else ceilSqrtFrom n (c + 1) fuel

/-- Ceiling of the real square root on naturals: the least `c` with `n ≤ c*c`.
Models `math.ceil(math.sqrt(n))` from `_calculate_layout`. -/
def ceilSqrt (n : Nat) : Nat :=
  ceilSqrtFrom n 0 n

theorem ceilSqrtFrom_spec (n : Nat) :
    ∀ fuel c, n ≤ (c + fuel) * (c + fuel) →
      c ≤ ceilSqrtFrom n c fuel ∧
      n ≤ ceilSqrtFrom n c fuel * ceilSqrtFrom n c fuel ∧
      ∀ m, c ≤ m → n ≤ m * m → ceilSqrtFrom n c fuel ≤ m := by
  intro fuel
  induction fuel with
  | zero =>
      intro c hc
      simp only [ceilSqrtFrom]
      exact ⟨le_refl c, by simpa using hc, fun m hm _ => hm⟩
  | succ fuel ih =>
      intro c hc
      by_cases h : n ≤ c * c
      · simp only [ceilSqrtFrom, if_pos h]
        exact ⟨le_refl c, h, fun m hm _ => hm⟩
      · simp only [ceilSqrtFrom, if_neg h]
        have hc' : n ≤ (c + 1 + fuel) * (c + 1 + fuel) := by
          have : c + 1 + fuel = c + (fuel + 1) := by omega
          rw [this]; exact hc
        obtain ⟨h1, h2, h3⟩ := ih (c + 1) hc'
        refine ⟨by omega, h2, fun m hm hmm => ?_⟩
        have : c + 1 ≤ m := by
          rcases Nat.eq_or_lt_of_le hm with rfl | hlt
          · exact absurd hmm h
          · omega
        exact h3 m this hmm

theorem ceilSqrt_spec (n : Nat) :
    n ≤ ceilSqrt n * ceilSqrt n ∧ ∀ m, n ≤ m * m → ceilSqrt n ≤ m := by
  have hn : n ≤ (0 + n) * (0 + n) := by
    rcases Nat.eq_zero_or_pos n with rfl | hpos
    · simp
    · simpa using Nat.le_mul_of_pos_left n hpos
  obtain ⟨_, h2, h3⟩ := ceilSqrtFrom_spec n n 0 hn
  exact ⟨h2, fun m hm => h3 m (Nat.zero_le m) hm⟩

/-- `_calculate_layout` (src/main.py lines 18-26): raises `ValueError` when
`n < 1`; otherwise `cols = ceil(sqrt(n))`, `rows = ceil(n / cols)`. -/
def _calculate_layout (n : Int) : Except String (Nat × Nat) :=
  if n < 1 then .error "pages_per_sheet must be at least 1"
  else
    let m := n.toNat
    let cols := ceilSqrt m
    let rows := (m + cols - 1) / cols
    .ok (cols, rows)

/-- `(m + c - 1) / c` is the ceiling of `m / c`: the least `k` with `m ≤ c * k`. -/
theorem ceil_div_spec (m c : Nat) (hc : 1 ≤ c) :
    m ≤ c * ((m + c - 1) / c) ∧ ∀ k, m ≤ c * k → (m + c - 1) / c ≤ k := by
  constructor
  · have h := Nat.div_add_mod (m + c - 1) c
    have hr : (m + c - 1) % c < c := Nat.mod_lt _ hc
    generalize c * ((m + c - 1) / c) = t at h ⊢
    generalize (m + c - 1) % c = r at h hr
    omega
  · intro k hk
    have hle : m + c - 1 ≤ c * k + (c - 1) := by
      generalize c * k = t at hk ⊢
      omega
    calc (m + c - 1) / c ≤ (c * k + (c - 1)) / c := Nat.div_le_div_right hle
      _ = k + (c - 1) / c := Nat.mul_add_div (by omega) k (c - 1)
      _ = k := by rw [Nat.div_eq_of_lt (by omega)]; omega

/-- For `n ≥ 1` the layout succeeds, `cols` is the least `c` with
`c*c ≥ n` and `rows` the least `k` with `cols*k ≥ n`. -/
theorem calculate_layout_ok (n : Int) (hn : 1 ≤ n) :
    ∃ cols rows : Nat,
      _calculate_layout n = .ok (cols, rows) ∧
      1 ≤ cols ∧ 1 ≤ rows ∧
      (n.toNat ≤ cols * cols ∧ ∀ m : Nat, n.toNat ≤ m * m → cols ≤ m) ∧
      (n.toNat ≤ cols * rows ∧ ∀ k : Nat, n.toNat ≤ cols * k → rows ≤ k) := by
  have hnn : ¬ n < 1 := not_lt.2 hn
  have hm : 1 ≤ n.toNat := by omega
  obtain ⟨hsq, hmin⟩ := ceilSqrt_spec n.toNat
  have hc : 1 ≤ ceilSqrt n.toNat := by
    rcases Nat.eq_zero_or_pos (ceilSqrt n.toNat) with hz | hp
    · rw [hz] at hsq; omega
    · exact hp
  obtain ⟨hge, hleast⟩ := ceil_div_spec n.toNat (ceilSqrt n.toNat) hc
  refine ⟨ceilSqrt n.toNat, (n.toNat + ceilSqrt n.toNat - 1) / ceilSqrt n.toNat,
    ?_, hc, ?_, ⟨hsq, hmin⟩, hge, hleast⟩
  · simp [_calculate_layout, hnn]
  · rw [Nat.one_le_div_iff (by omega)]; omega

/-- C1: for every integer `n ≥ 1`, `_calculate_layout n` succeeds with
`cols` the ceiling of the square root of `n` (the least `c` with `c*c ≥ n`)
and `rows` the ceiling of `n / cols` (the least `k` with `cols*k ≥ n`), so
`cols * rows ≥ n`; for `n < 1` it fails with the invalid-argument error.
The listed examples `n = 1, 4, 5, 6, 9` give `(1,1), (2,2), (3,2), (3,2), (3,3)`. -/
theorem C1_calculate_layout :
    (∀ n : Int, n < 1 →
      _calculate_layout n = .error "pages_per_sheet must be at least 1") ∧
    (∀ n : Int, 1 ≤ n → ∃ cols rows : Nat,
      _calculate_layout n = .ok (cols, rows) ∧
      1 ≤ cols ∧ 1 ≤ rows ∧
      (n.toNat ≤ cols * cols ∧ ∀ m : Nat, n.toNat ≤ m * m → cols ≤ m) ∧
      (n.toNat ≤ cols * rows ∧ ∀ k : Nat, n.toNat ≤ cols * k → rows ≤ k)) ∧
    _calculate_layout 1 = .ok (1, 1) ∧
    _calculate_layout 4 = .ok (2, 2) ∧
    _calculate_layout 5 = .ok (3, 2) ∧
    _calculate_layout 6 = .ok (3, 2) ∧
    _calculate_layout 9 = .ok (3, 3) := by
  refine ⟨?_, fun n hn => calculate_layout_ok n hn,
    by decide, by decide, by decide, by decide, by decide⟩
  intro n hn
  simp [_calculate_layout, hn]

/-- C1 witness: at `n = 7` the hypothesis `1 ≤ 7` holds and the layout is
produced with all the stated properties. -/
theorem C1_calculate_layout_witness :
    (1 : Int) ≤ 7 ∧ ∃ cols rows : Nat,
      _calculate_layout 7 = .ok (cols, rows) ∧
      1 ≤ cols ∧ 1 ≤ rows ∧
      ((7 : Int).toNat ≤ cols * cols ∧ ∀ m : Nat, (7 : Int).toNat ≤ m * m → cols ≤ m) ∧
      ((7 : Int).toNat ≤ cols * rows ∧ ∀ k : Nat, (7 : Int).toNat ≤ cols * k → rows ≤ k) :=
  ⟨by decide, C1_calculate_layout.2.1 7 (by decide)⟩

/-- `_generate_positions` (src/main.py lines 28-38): slot origins emitted by
the comprehension `[(col*cell_width, (rows-1-row)*cell_height) for row in
range(rows) for col in range(cols)]` with `cell_width = width/cols`,
`cell_height = height/rows`. -/
def _generate_positions (cols rows : Nat) (width height : ℚ) : List (ℚ × ℚ) :=
  let cell_width := width / cols
  let cell_height := height / rows
  (List.range rows).flatMap fun (row : Nat) =>
    (List.range cols).map fun (col : Nat) =>
      ((col : ℚ) * cell_width, ((rows - 1 - row : Nat) : ℚ) * cell_height)

theorem flatMap_range_length {α : Type} (f : Nat → List α) (k : Nat)
    (hk : ∀ r, (f r).length = k) (n : Nat) :
    ((List.range n).flatMap f).length = n * k := by
  induction n with
  | zero => simp
  | succ n ih => rw [List.range_succ, List.flatMap_append]; simp [ih, hk, Nat.succ_mul]

theorem flatMap_range_getElem {α : Type} (f : Nat → List α) (k : Nat)
    (hk : ∀ r, (f r).length = k) :
    ∀ rows i j, i < rows → j < k →
      ((List.range rows).flatMap f)[i * k + j]? = (f i)[j]? := by
  intro rows
  induction rows with
  | zero => intro i j hi _; exact absurd hi (Nat.not_lt_zero i)
  | succ rows ih =>
      intro i j hi hj
      rw [List.range_succ, List.flatMap_append]
      rcases Nat.lt_succ_iff_lt_or_eq.1 hi with h | rfl
      · rw [List.getElem?_append_left]
        · exact ih i j h hj
        · rw [flatMap_range_length f k hk]
          calc i * k + j < i * k + k := by omega
            _ = (i + 1) * k := by ring
            _ ≤ rows * k := Nat.mul_le_mul_right k h
      · rw [List.getElem?_append_right]
        · rw [flatMap_range_length f k hk]
          have harith : i * k + j - i * k = j := by
            generalize i * k = t
            omega
          rw [harith]
          simp
        · rw [flatMap_range_length f k hk]
          omega

theorem generate_positions_length (cols rows : Nat) (width height : ℚ) :
    (_generate_positions cols rows width height).length = rows * cols := by
  simp only [_generate_positions]
  exact flatMap_range_length _ cols (fun r => by simp) rows

theorem generate_positions_getElem (cols rows : Nat) (width height : ℚ)
    (row col : Nat) (hr : row < rows) (hc : col < cols) :
    (_generate_positions cols rows width height)[row * cols + col]? =
      some ((col : ℚ) * (width / cols), ((rows - 1 - row : Nat) : ℚ) * (height / rows)) := by
  simp only [_generate_positions]
  rw [flatMap_range_getElem _ cols (fun r => by simp) rows row col hr hc]
  rw [List.getElem?_map]
  simp [List.getElem?_range, hc]

theorem generate_positions_nodup (cols rows : Nat) (width height : ℚ)
    (hcols : 1 ≤ cols) (hrows : 1 ≤ rows) (hw : 0 < width) (hh : 0 < height) :
    (_generate_positions cols rows width height).Nodup := by
  have hcw : 0 < width / (cols : ℚ) := by positivity
  have hch : 0 < height / (rows : ℚ) := by positivity
  simp only [_generate_positions]
  refine List.nodup_flatMap.2 ⟨?_, ?_⟩
  · intro row _
    refine List.Nodup.map_on ?_ (List.nodup_range cols)
    intro c1 _ c2 _ heq
    have h1 : (c1 : ℚ) * (width / cols) = (c2 : ℚ) * (width / cols) :=
      congrArg Prod.fst heq
    have := mul_right_cancel₀ (ne_of_gt hcw) h1
    exact_mod_cast this
  · refine List.Pairwise.imp_of_mem ?_ (List.pairwise_lt_range rows)
    intro r1 r2 hm1 hm2 hlt p hp1 hp2
    have hr1 : r1 < rows := List.mem_range.1 hm1
    have hr2 : r2 < rows := List.mem_range.1 hm2
    obtain ⟨c1, _, rfl⟩ := List.mem_map.1 hp1
    obtain ⟨c2, _, h2⟩ := List.mem_map.1 hp2
    have hy : ((rows - 1 - r2 : Nat) : ℚ) * (height / rows)
        = ((rows - 1 - r1 : Nat) : ℚ) * (height / rows) :=
      congrArg Prod.snd h2
    have := mul_right_cancel₀ (ne_of_gt hch) hy
    have hnat : rows - 1 - r2 = rows - 1 - r1 := by exact_mod_cast this
    omega

theorem generate_positions_head (cols rows : Nat) (width height : ℚ)
    (hcols : 1 ≤ cols) (hrows : 1 ≤ rows) :
    (_generate_positions cols rows width height).head? =
      some (0, ((rows - 1 : Nat) : ℚ) * (height / rows)) := by
  rw [List.head?_eq_getElem?]
  have h0 : (0 : Nat) = 0 * cols + 0 := by omega
  rw [h0, generate_positions_getElem cols rows width height 0 0 (by omega) (by omega)]
  norm_num

theorem generate_positions_getLast (cols rows : Nat) (width height : ℚ)
    (hcols : 1 ≤ cols) (hrows : 1 ≤ rows) :
    (_generate_positions cols rows width height).getLast? =
      some (((cols - 1 : Nat) : ℚ) * (width / cols), 0) := by
  rw [List.getLast?_eq_getElem?, generate_positions_length]
  have hidx : rows * cols - 1 = (rows - 1) * cols + (cols - 1) := by
    rcases rows with _ | r
    · omega
    · rw [Nat.succ_mul]
      simp only [Nat.succ_sub_one]
      generalize r * cols = t
      omega
  rw [hidx, generate_positions_getElem cols rows width height (rows - 1) (cols - 1)
    (by omega) (by omega)]
  have : rows - 1 - (rows - 1) = 0 := Nat.sub_self (rows - 1)
  rw [this]
  norm_num

/-- C2: for every grid with `cols, rows ≥ 1` and positive sheet width and
height, `_generate_positions` emits exactly `cols*rows` pairwise-distinct
pairs, row-major with the row loop outer — the entry at index
`row*cols + col` is `(col * (width/cols), (rows-1-row) * (height/rows))` —
and the first pair is `(0, (rows-1)*cellHeight)` while the last is
`((cols-1)*cellWidth, 0)`. -/
theorem C2_generate_positions (cols rows : Nat) (width height : ℚ)
    (hcols : 1 ≤ cols) (hrows : 1 ≤ rows) (hw : 0 < width) (hh : 0 < height) :
    (_generate_positions cols rows width height).length = cols * rows ∧
    (_generate_positions cols rows width height).Nodup ∧
    (∀ row col, row < rows → col < cols →
      (_generate_positions cols rows width height)[row * cols + col]? =
        some ((col : ℚ) * (width / cols), ((rows - 1 - row : Nat) : ℚ) * (height / rows))) ∧
    (_generate_positions cols rows width height).head? =
      some (0, ((rows - 1 : Nat) : ℚ) * (height / rows)) ∧
    (_generate_positions cols rows width height).getLast? =
      some (((cols - 1 : Nat) : ℚ) * (width / cols), 0) :=
  ⟨by rw [generate_positions_length]; ring,
   generate_positions_nodup cols rows width height hcols hrows hw hh,
   fun row col hr hc => generate_positions_getElem cols rows width height row col hr hc,
   generate_positions_head cols rows width height hcols hrows,
   generate_positions_getLast cols rows width height hcols hrows⟩

/-- C2 witness: the 3×2 grid on a 300×200 sheet satisfies every stated
property. -/
theorem C2_generate_positions_witness :
    (1 ≤ 3 ∧ 1 ≤ 2 ∧ (0:ℚ) < 300 ∧ (0:ℚ) < 200) ∧
    ((_generate_positions 3 2 300 200).length = 3 * 2 ∧
    (_generate_positions 3 2 300 200).Nodup ∧
    (∀ (row col : Nat), row < 2 → col < 3 →
      (_generate_positions 3 2 300 200)[row * 3 + col]? =
        some ((col : ℚ) * ((300 : ℚ) / ((3 : Nat) : ℚ)),
          ((2 - 1 - row : Nat) : ℚ) * ((200 : ℚ) / ((2 : Nat) : ℚ)))) ∧
    (_generate_positions 3 2 300 200).head? =
      some (0, ((2 - 1 : Nat) : ℚ) * ((200 : ℚ) / ((2 : Nat) : ℚ))) ∧
    (_generate_positions 3 2 300 200).getLast? =
      some (((3 - 1 : Nat) : ℚ) * ((300 : ℚ) / ((3 : Nat) : ℚ)), 0)) :=
  ⟨⟨by decide, by decide, by norm_num, by norm_num⟩,
   C2_generate_positions 3 2 300 200 (by decide) (by decide) (by norm_num) (by norm_num)⟩

/-- pypdf `Transformation`: an affine map stored as the six free entries of
the PDF current transformation matrix `[[a,b,0],[c,d,0],[e,f,1]]`, acting on
row vectors `(x, y, 1)` on the right. -/
structure Transformation where
  a : ℚ
  b : ℚ
  c : ℚ
  d : ℚ
  e : ℚ
  f : ℚ
deriving DecidableEq

/-- `Transformation()`: the identity matrix `(1, 0, 0, 1, 0, 0)`. -/
def Transformation.init : Transformation := ⟨1, 0, 0, 1, 0, 0⟩

/-- Row-vector matrix product: `m.mul n` applies `m` first, then `n`,
exactly as pypdf chains operations. -/
def Transformation.mul (m n : Transformation) : Transformation where
  a := m.a * n.a + m.b * n.c
  b := m.a * n.b + m.b * n.d
  c := m.c * n.a + m.d * n.c
  d := m.c * n.b + m.d * n.d
  e := m.e * n.a + m.f * n.c + n.e
  f := m.e * n.b + m.f * n.d + n.f

/-- pypdf `Transformation.scale(sx, sy)`: multiply on the right by the
scaling matrix. -/
def Transformation.scale (m : Transformation) (sx sy : ℚ) : Transformation :=
  m.mul ⟨sx, 0, 0, sy, 0, 0⟩

/-- pypdf `Transformation.translate(tx, ty)`: multiply on the right by the
translation matrix. -/
def Transformation.translate (m : Transformation) (tx ty : ℚ) : Transformation :=
  m.mul ⟨1, 0, 0, 1, tx, ty⟩

/-- pypdf `Transformation.apply_on((x, y))`. -/
def Transformation.apply (m : Transformation) (p : ℚ × ℚ) : ℚ × ℚ :=
  (m.a * p.1 + m.c * p.2 + m.e, m.b * p.1 + m.d * p.2 + m.f)

/-- The `self.padding` attribute: Python lets it be a number or any other
object; `isinstance(padding, (int, float))` distinguishes the two. -/
inductive Padding where
  | num (q : ℚ)
  | nonNum
deriving DecidableEq

/-- `_get_scale_factor` (src/main.py lines 40-49): a positive numeric
padding shrinks the per-axis scale by `(1 - 2*padding)`; anything else
gives `1/cols`, `1/rows`. -/
def _get_scale_factor (padding : Padding) (cols rows : Nat) : ℚ × ℚ :=
  match padding with
  | .num p =>
      if 0 < p then ((1 - 2 * p) / cols, (1 - 2 * p) / rows)
      else (1 / cols, 1 / rows)
  | .nonNum => (1 / cols, 1 / rows)

/-- Line 100 of src/main.py: `padding_val = self.padding if
isinstance(self.padding, (int, float)) else 0.0`. -/
def padding_val : Padding → ℚ
  | .num p => p
  | .nonNum => 0

/-- The single blank output page built by `_process_chunk`: its size and
the ordered source-page merges applied to it (page content paired with the
affine transform it is merged under). -/
structure Canvas (α : Type) where
  width : ℚ
  height : ℚ
  merges : List (α × Transformation)
deriving DecidableEq

/-- `_process_chunk` (src/main.py lines 124-165): slice `pages[start:end]`,
pair each page with the slot origin of its index (stopping at
`len(positions)`), offset by `cell * padding_val`, and merge it under
`Transformation().scale(scale_x, scale_y).translate(tx_total, ty_total)`
onto one blank `width × height` page. -/
def _process_chunk {α : Type} (pages : List α) (start endIdx : Nat)
    (width height : ℚ) (cols rows : Nat) (scale_x scale_y padding_val : ℚ) :
    Canvas α :=
  let positions := _generate_positions cols rows width height
  let cell_width := width / cols
  let cell_height := height / rows
  let chunk := (pages.drop start).take (endIdx - start)
  { width := width
    height := height
    merges := (chunk.zip positions).map fun pt =>
      (pt.1, (Transformation.init.scale scale_x scale_y).translate
        (pt.2.1 + cell_width * padding_val) (pt.2.2 + cell_height * padding_val)) }

theorem map_fst_zip_take {α β : Type} (l : List α) (l' : List β) :
    (l.zip l').map Prod.fst = l.take l'.length := by
  induction l generalizing l' with
  | nil => simp
  | cons x xs ih =>
      cases l' with
      | nil => simp
      | cons y ys => simp [ih]

/-- C3 counterexample: a negative numeric padding (`-1/10`) yields the
no-padding scale, yet the composited chunk differs from the no-padding
chunk — the placement origins are still offset by `cell * padding_val`,
so the padding mechanism is not a no-op there. -/
theorem C3_counterexample :
    _get_scale_factor (.num (-1/10)) 2 2 = _get_scale_factor .nonNum 2 2 ∧
    ¬ (_process_chunk [()] 0 1 (1:ℚ) 1 2 2 (1/2) (1/2) (padding_val (.num (-1/10))) =
       _process_chunk [()] 0 1 (1:ℚ) 1 2 2 (1/2) (1/2) (padding_val .nonNum)) := by
  constructor
  · norm_num [_get_scale_factor]
  · intro h
    have hm := congrArg Canvas.merges h
    revert hm
    simp only [_process_chunk, _generate_positions, padding_val, Transformation.init,
      Transformation.scale, Transformation.translate, Transformation.mul,
      List.range_succ, List.range_zero]
    norm_num

/-- C3 (amended): a positive numeric padding `p` gives per-axis scale
`(1-2p)/cols`, `(1-2p)/rows`; non-positive or non-numeric padding gives
`1/cols`, `1/rows`. The whole mechanism (scale and effective placement
origins) is a no-op only for non-numeric or zero padding; the raw numeric
value — negative included — always flows into the origin inset. -/
theorem C3_padding_semantics :
    (∀ (p : ℚ) (cols rows : Nat), 0 < p →
      _get_scale_factor (.num p) cols rows = ((1 - 2*p)/cols, (1 - 2*p)/rows)) ∧
    (∀ (p : ℚ) (cols rows : Nat), p ≤ 0 →
      _get_scale_factor (.num p) cols rows = ((1:ℚ)/cols, (1:ℚ)/rows)) ∧
    (∀ cols rows : Nat, _get_scale_factor .nonNum cols rows = ((1:ℚ)/cols, (1:ℚ)/rows)) ∧
    (∀ padding : Padding, padding = .nonNum ∨ padding = .num 0 →
      padding_val padding = 0 ∧
      ∀ {α : Type} (pages : List α) (start endIdx : Nat) (w h : ℚ)
          (cols rows : Nat) (sx sy : ℚ),
        _process_chunk pages start endIdx w h cols rows sx sy (padding_val padding) =
          _process_chunk pages start endIdx w h cols rows sx sy (padding_val .nonNum)) ∧
    (∀ p : ℚ, padding_val (.num p) = p) := by
  refine ⟨?_, ?_, ?_, ?_, fun p => rfl⟩
  · intro p cols rows hp
    show (if 0 < p then ((1 - 2*p)/(cols:ℚ), (1 - 2*p)/(rows:ℚ))
      else ((1:ℚ)/cols, (1:ℚ)/rows)) = _
    rw [if_pos hp]
  · intro p cols rows hp
    show (if 0 < p then ((1 - 2*p)/(cols:ℚ), (1 - 2*p)/(rows:ℚ))
      else ((1:ℚ)/cols, (1:ℚ)/rows)) = _
    rw [if_neg (not_lt.2 hp)]
  · intro cols rows
    rfl
  · rintro padding (rfl | rfl)
    · exact ⟨rfl, fun pages start endIdx w h cols rows sx sy => rfl⟩
    · exact ⟨rfl, fun pages start endIdx w h cols rows sx sy => rfl⟩

/-- C3 witness: padding `1/10` on a 2×3 grid gives scale `(8/10)/2`,
`(8/10)/3`; padding `-1/10` gives the un-padded scale. -/
theorem C3_padding_semantics_witness :
    ((0:ℚ) < 1/10 ∧
      _get_scale_factor (.num (1/10)) 2 3 =
        ((1 - 2*(1/10))/((2:Nat):ℚ), (1 - 2*(1/10))/((3:Nat):ℚ))) ∧
    ((-1/10 : ℚ) ≤ 0 ∧
      _get_scale_factor (.num (-1/10)) 2 3 = (1/((2:Nat):ℚ), 1/((3:Nat):ℚ))) :=
  ⟨⟨by norm_num, C3_padding_semantics.1 (1/10) 2 3 (by norm_num)⟩,
   ⟨by norm_num, C3_padding_semantics.2.1 (-1/10) 2 3 (by norm_num)⟩⟩

theorem process_chunk_map_fst {α : Type} (pages : List α) (start endIdx : Nat)
    (w h : ℚ) (cols rows : Nat) (sx sy pv : ℚ) :
    (_process_chunk pages start endIdx w h cols rows sx sy pv).merges.map Prod.fst =
      ((pages.drop start).take (endIdx - start)).take
        ((_generate_positions cols rows w h).length) := by
  simp only [_process_chunk]
  rw [List.map_map]
  have : (Prod.fst ∘ fun pt : α × ℚ × ℚ =>
      (pt.1, (Transformation.init.scale sx sy).translate
        (pt.2.1 + w / cols * pv) (pt.2.2 + h / rows * pv))) = Prod.fst := rfl
  rw [this, map_fst_zip_take]

/-- C4: the transform a chunk applies to the source page in slot `idx` is
built by composing the scale `(scale_x, scale_y)` first and the translation
second; the translation is the slot origin plus `(padding_val * cellWidth,
padding_val * cellHeight)`; the composed map sends `(x, y)` to
`(sx*x + tx, sy*y + ty)` — while the reversed composition would scale the
translation too — and the merged page contents are the source pages
themselves, unchanged. -/
theorem C4_scale_then_translate :
    (∀ {α : Type} (pages : List α) (start endIdx : Nat) (w h : ℚ)
        (cols rows : Nat) (sx sy pv : ℚ) (idx : Nat) (page : α) (t : Transformation),
      (_process_chunk pages start endIdx w h cols rows sx sy pv).merges[idx]? =
          some (page, t) →
      ∃ tx ty : ℚ,
        (_generate_positions cols rows w h)[idx]? = some (tx, ty) ∧
        t = (Transformation.init.scale sx sy).translate
              (tx + (w / cols) * pv) (ty + (h / rows) * pv) ∧
        ∀ x y : ℚ, t.apply (x, y) =
          (sx * x + (tx + (w / cols) * pv), sy * y + (ty + (h / rows) * pv))) ∧
    (∀ sx sy tx ty x y : ℚ,
      ((Transformation.init.scale sx sy).translate tx ty).apply (x, y) =
        (sx * x + tx, sy * y + ty) ∧
      ((Transformation.init.translate tx ty).scale sx sy).apply (x, y) =
        (sx * (x + tx), sy * (y + ty))) ∧
    (∀ {α : Type} (pages : List α) (start endIdx : Nat) (w h : ℚ)
        (cols rows : Nat) (sx sy pv : ℚ),
      (_process_chunk pages start endIdx w h cols rows sx sy pv).merges.map Prod.fst =
        ((pages.drop start).take (endIdx - start)).take
          ((_generate_positions cols rows w h).length)) := by
  refine ⟨?_, ?_, ?_⟩
  · intro α pages start endIdx w h cols rows sx sy pv idx page t hm
    simp only [_process_chunk, List.getElem?_map] at hm
    rcases hz : (((pages.drop start).take (endIdx - start)).zip
        (_generate_positions cols rows w h))[idx]? with _ | pr
    · rw [hz] at hm; simp at hm
    · rw [hz] at hm
      simp only [Option.map_some', Option.some.injEq, Prod.mk.injEq] at hm
      obtain ⟨hpage, ht⟩ := hm
      obtain ⟨hc, hp⟩ := List.getElem?_zip_eq_some.1 hz
      refine ⟨pr.2.1, pr.2.2, by rw [hp], ht.symm ▸ rfl, ?_⟩
      intro x y
      rw [← ht]
      simp only [Transformation.init, Transformation.scale, Transformation.translate,
        Transformation.mul, Transformation.apply, Prod.mk.injEq]
      constructor <;> ring
  · intro sx sy tx ty x y
    constructor <;>
      · simp only [Transformation.init, Transformation.scale, Transformation.translate,
          Transformation.mul, Transformation.apply, Prod.mk.injEq]
        constructor <;> ring
  · intro α pages start endIdx w h cols rows sx sy pv
    exact process_chunk_map_fst pages start endIdx w h cols rows sx sy pv

/-- C4 witness: a one-page chunk on a 2×2 grid of a 1×1 sheet at scale
`(1/2, 1/2)` and no padding merges page `7` under the concrete matrix
`(1/2, 0, 0, 1/2, 0, 1/2)`, which satisfies every stated property. -/
theorem C4_scale_then_translate_witness :
    ((_process_chunk [(7:ℕ)] 0 1 (1:ℚ) 1 2 2 (1/2) (1/2) 0).merges[0]? =
      some (7, (⟨1/2, 0, 0, 1/2, 0, 1/2⟩ : Transformation))) ∧
    ∃ tx ty : ℚ,
      (_generate_positions 2 2 (1:ℚ) 1)[0]? = some (tx, ty) ∧
      (⟨1/2, 0, 0, 1/2, 0, 1/2⟩ : Transformation) =
        (Transformation.init.scale (1/2) (1/2)).translate
          (tx + ((1:ℚ) / ((2:Nat):ℚ)) * 0) (ty + ((1:ℚ) / ((2:Nat):ℚ)) * 0) ∧
      ∀ x y : ℚ, (⟨1/2, 0, 0, 1/2, 0, 1/2⟩ : Transformation).apply (x, y) =
        ((1/2) * x + (tx + ((1:ℚ) / ((2:Nat):ℚ)) * 0),
         (1/2) * y + (ty + ((1:ℚ) / ((2:Nat):ℚ)) * 0)) := by
  have h : (_process_chunk [(7:ℕ)] 0 1 (1:ℚ) 1 2 2 (1/2) (1/2) 0).merges[0]? =
      some (7, (⟨1/2, 0, 0, 1/2, 0, 1/2⟩ : Transformation)) := by
    simp [_process_chunk, _generate_positions, Transformation.init, Transformation.scale,
      Transformation.translate, Transformation.mul, List.range_succ]
  exact ⟨h, C4_scale_then_translate.1 [7] 0 1 1 1 2 2 (1/2) (1/2) 0 0 7 _ h⟩

/-- C5: one chunk merges exactly the first `min(len(chunk), cols*rows)`
source pages — pages beyond grid capacity are dropped without error, a
short chunk fills only its first slots — and the output is the single
`width × height` canvas page with no filler pages. -/
theorem C5_truncation {α : Type} (pages : List α) (start endIdx : Nat)
    (w h : ℚ) (cols rows : Nat) (sx sy pv : ℚ) :
    (_process_chunk pages start endIdx w h cols rows sx sy pv).merges.length =
      min ((pages.drop start).take (endIdx - start)).length (cols * rows) ∧
    (_process_chunk pages start endIdx w h cols rows sx sy pv).merges.map Prod.fst =
      ((pages.drop start).take (endIdx - start)).take (cols * rows) ∧
    (_process_chunk pages start endIdx w h cols rows sx sy pv).width = w ∧
    (_process_chunk pages start endIdx w h cols rows sx sy pv).height = h := by
  have hlen : (_generate_positions cols rows w h).length = cols * rows := by
    rw [generate_positions_length]; ring
  refine ⟨?_, ?_, rfl, rfl⟩
  · simp only [_process_chunk, List.length_map]
    rw [List.length_zip, hlen]
  · have := process_chunk_map_fst pages start endIdx w h cols rows sx sy pv
    rw [this, hlen]

/-- The first maximal run of decimal digits in a character list, as matched
by `re.search(r'\d+', filename)`. -/
def firstDigitRun : List Char → Option (List Char)
  | [] => none
  | c :: cs =>
      if c.isDigit then some (c :: cs.takeWhile (fun ch => ch.isDigit))
      else firstDigitRun cs

/-- Decimal value of a digit run, as computed by Python `int(...)`. -/
def digitsToNat (ds : List Char) : Nat :=
  ds.foldl (fun n c => n * 10 + (c.toNat - ('0').toNat)) 0

/-- `_extract_number_from_filename` (src/main.py lines 51-54): the integer
value of the first digit run, or `float('inf')` — modelled as `none` — when
the filename has no digit. -/
def _extract_number_from_filename (filename : String) : Option Nat :=
  (firstDigitRun filename.toList).map digitsToNat

/-- Comparison of sort keys, `none` playing the role of `float('inf')`. -/
def keyLE (a b : Option Nat) : Bool :=
  match a, b with
  | some m, some n => m ≤ n
  | some _, none => true
  | none, some _ => false
  | none, none => true

theorem keyLE_refl (x : Option Nat) : keyLE x x = true := by
  rcases x with _ | m <;> simp [keyLE]

theorem keyLE_total (x y : Option Nat) : keyLE x y = true ∨ keyLE y x = true := by
  rcases x with _ | m <;> rcases y with _ | n <;> simp [keyLE] <;> omega

theorem keyLE_trans (x y z : Option Nat) (h1 : keyLE x y = true)
    (h2 : keyLE y z = true) : keyLE x z = true := by
  rcases x with _ | m <;> rcases y with _ | n <;> rcases z with _ | p <;>
    simp_all [keyLE] <;> omega

/-- Lines 60-62 of src/main.py: keep the files whose lowercased name ends
in `.pdf`, then `pdf_files.sort(key=self._extract_number_from_filename)` —
Python's `list.sort` is stable, which insertion sort with a non-strict key
comparison reproduces exactly. -/
def sorted_pdf_files (all_files : List String) : List String :=
  let pdf_files := all_files.filter fun f =>
    ".pdf".toList.isSuffixOf (f.toList.map Char.toLower)
  pdf_files.insertionSort fun a b =>
    keyLE (_extract_number_from_filename a) (_extract_number_from_filename b) = true

theorem filter_key_orderedInsert {α : Type} (key : α → Option Nat) (x : α)
    (l : List α) (k : Option Nat) :
    ((List.orderedInsert (fun a b => keyLE (key a) (key b) = true) x l).filter
        (fun a => decide (key a = k))) =
      if key x = k then x :: l.filter (fun a => decide (key a = k))
      else l.filter (fun a => decide (key a = k)) := by
  rw [List.orderedInsert_eq_take_drop, List.filter_append]
  have hnone : ∀ y ∈ l.takeWhile (fun b => decide ¬(keyLE (key x) (key b) = true)),
      key y ≠ key x := by
    intro y hy heq
    have hp := List.mem_takeWhile_imp hy
    simp only [decide_eq_true_eq] at hp
    rw [heq] at hp
    exact hp (keyLE_refl (key x))
  by_cases hk : key x = k
  · rw [if_pos hk]
    have htw : (l.takeWhile (fun b => decide ¬(keyLE (key x) (key b) = true))).filter
        (fun a => decide (key a = k)) = [] := by
      rw [List.filter_eq_nil_iff]
      intro y hy
      simp only [decide_eq_true_eq]
      rw [← hk]
      exact hnone y hy
    rw [htw]
    have hx : decide (key x = k) = true := by simp [hk]
    rw [List.filter_cons, if_pos hx, List.nil_append]
    conv_rhs => rw [← List.takeWhile_append_dropWhile
      (p := fun b => decide ¬(keyLE (key x) (key b) = true)) (l := l)]
    rw [List.filter_append, htw, List.nil_append]
  · rw [if_neg hk]
    have hx : ¬ (decide (key x = k) = true) := by simp [hk]
    rw [List.filter_cons, if_neg hx]
    conv_rhs => rw [← List.takeWhile_append_dropWhile
      (p := fun b => decide ¬(keyLE (key x) (key b) = true)) (l := l)]
    rw [List.filter_append]

theorem insertionSort_stable_filter {α : Type} (key : α → Option Nat)
    (l : List α) (k : Option Nat) :
    ((l.insertionSort (fun a b => keyLE (key a) (key b) = true)).filter
        (fun a => decide (key a = k))) = l.filter (fun a => decide (key a = k)) := by
  induction l with
  | nil => rfl
  | cons x xs ih =>
      rw [List.insertionSort, filter_key_orderedInsert key x _ k, List.filter_cons]
      by_cases hk : key x = k
      · rw [if_pos hk, if_pos (by simp [hk]), ih]
      · rw [if_neg hk, if_neg (by simp [hk]), ih]

/-- C6: input files are filtered to `.pdf` case-insensitively and sorted by
the integer value of the first digit run (digitless names act as `+∞` and
sort last, ties keep enumeration order): the listed example sorts to
`["slide1.pdf", "slide2.pdf", "slide10.pdf", "cover.pdf"]`; in general the
result is a permutation of the filtered input, sorted by key, and stable
(the sublist holding any fixed key is unchanged). -/
theorem C6_natural_sort :
    sorted_pdf_files ["slide10.pdf", "slide2.pdf", "cover.pdf", "slide1.pdf"] =
      ["slide1.pdf", "slide2.pdf", "slide10.pdf", "cover.pdf"] ∧
    _extract_number_from_filename "slide10.pdf" = some 10 ∧
    _extract_number_from_filename "slide2.pdf" = some 2 ∧
    _extract_number_from_filename "slide1.pdf" = some 1 ∧
    _extract_number_from_filename "cover.pdf" = none ∧
    sorted_pdf_files ["A.PDF", "b.txt", "c.Pdf"] = ["A.PDF", "c.Pdf"] ∧
    ∀ l : List String,
      (sorted_pdf_files l).Perm
        (l.filter fun f => ".pdf".toList.isSuffixOf (f.toList.map Char.toLower)) ∧
      (sorted_pdf_files l).Sorted (fun a b =>
        keyLE (_extract_number_from_filename a) (_extract_number_from_filename b)
          = true) ∧
      ∀ k : Option Nat,
        ((sorted_pdf_files l).filter
            (fun a => decide (_extract_number_from_filename a = k))) =
          ((l.filter fun f => ".pdf".toList.isSuffixOf (f.toList.map Char.toLower)).filter
            (fun a => decide (_extract_number_from_filename a = k))) := by
  refine ⟨by decide, by decide, by decide, by decide, by decide, by decide, ?_⟩
  intro l
  refine ⟨List.perm_insertionSort _ _, ?_, ?_⟩
  · haveI : IsTotal String (fun a b =>
        keyLE (_extract_number_from_filename a) (_extract_number_from_filename b)
          = true) :=
      ⟨fun a b => keyLE_total _ _⟩
    haveI : IsTrans String (fun a b =>
        keyLE (_extract_number_from_filename a) (_extract_number_from_filename b)
          = true) :=
      ⟨fun a b c => keyLE_trans _ _ _⟩
    exact List.sorted_insertionSort _ _
  · intro k
    exact insertionSort_stable_filter _extract_number_from_filename _ k

/-- The `PDFMergerProcessor` attributes set by `__init__`
(src/main.py lines 11-16). -/
structure PDFMergerProcessor where
  input_folder : String
  output_file : String
  pages_per_sheet : Int
  padding : Padding

/-- `PDFMergerProcessor.__init__`: stores the folder and output path and
sets `self.pages_per_sheet = max(1, pages_per_sheet)`; it raises nothing. -/
def PDFMergerProcessor.init (input_folder output_file : String)
    (pages_per_sheet : Int) (padding : Padding) : PDFMergerProcessor :=
  { input_folder := input_folder
    output_file := output_file
    pages_per_sheet := max 1 pages_per_sheet
    padding := padding }

/-- C7 counterexample: constructing the processor with `pagesPerSheet = 0`
does not fail — the value is silently clamped to `1` — and the layout call
the pipeline makes on the stored value succeeds with `(1, 1)`, so no
`InvalidArgument` ever reaches the caller. -/
theorem C7_counterexample :
    (PDFMergerProcessor.init "in" "out" 0 (.num (1/20))).pages_per_sheet = 1 ∧
    _calculate_layout
        (PDFMergerProcessor.init "in" "out" 0 (.num (1/20))).pages_per_sheet =
      .ok (1, 1) := by
  constructor
  · rfl
  · decide

/-- C7 (amended): a configured `pagesPerSheet < 1` is silently clamped to
`1` at construction; `__init__` raises nothing, the stored value is always
`≥ 1`, and the pipeline's layout computation on it always succeeds — the
`InvalidArgument` branch of `_calculate_layout` exists but is never reached
from a constructed processor. -/
theorem C7_clamped_not_raised (input_folder output_file : String)
    (pps : Int) (pad : Padding) :
    (PDFMergerProcessor.init input_folder output_file pps pad).pages_per_sheet
      = max 1 pps ∧
    1 ≤ (PDFMergerProcessor.init input_folder output_file pps pad).pages_per_sheet ∧
    ∃ cols rows : Nat,
      _calculate_layout
          (PDFMergerProcessor.init input_folder output_file pps pad).pages_per_sheet
        = .ok (cols, rows) := by
  refine ⟨rfl, le_max_left 1 pps, ?_⟩
  obtain ⟨cols, rows, hok, -⟩ :=
    calculate_layout_ok (max 1 pps) (le_max_left 1 pps)
  exact ⟨cols, rows, hok⟩

/-- An input document as the pipeline sees it: whether `PdfReader` can open
it, and its page count. -/
structure Doc where
  readable : Bool
  pageCount : Nat
deriving DecidableEq

/-- Number of chunks `range(0, total, cs)` yields (for `cs ≥ 1`):
`ceil(total / cs)`. -/
def numChunks (total cs : Nat) : Nat :=
  (total + cs - 1) / cs

/-- The chunk start offsets `range(0, total, chunk_size)` from
src/main.py line 108: the `i`-th chunk starts at `i * cs`. -/
def chunkStarts (total cs : Nat) : List Nat :=
  (List.range (numChunks total cs)).map (fun i => i * cs)

/-- `process_pdf_file` (src/main.py lines 80-122), abstracted over chunk
success: an unreadable document (the `except` at line 121) or an empty one
(early return at lines 84-86) contributes nothing; otherwise `pool.map`
returns one result per chunk in chunk order, a failed chunk returns `None`
and is skipped by the merge loop (lines 115-119), and each successful chunk
contributes exactly its single canvas page, tagged here with
`(docIdx, chunkStart)`. -/
def process_pdf_file_pages (cs docIdx : Nat) (doc : Doc)
    (chunkOk : Nat → Bool) : List (Nat × Nat) :=
  if doc.readable = false then []
  else if doc.pageCount = 0 then []
  else
    ((chunkStarts doc.pageCount cs).map fun start =>
      if chunkOk start then some (docIdx, start) else none).filterMap id

/-- The document loop of `process_pdfs` (lines 68-71): documents processed
one after another, each appending its pages to the writer. -/
def process_pdfs_from (cs : Nat) (chunkOk : Nat → Nat → Bool) :
    Nat → List Doc → List (Nat × Nat)
  | _, [] => []
  | d, doc :: rest =>
      process_pdf_file_pages cs d doc (chunkOk d) ++
        process_pdfs_from cs chunkOk (d + 1) rest

/-- All pages accumulated in `self.merger` over the (sorted) input
documents. -/
def process_pdfs_pages (cs : Nat) (docs : List Doc)
    (chunkOk : Nat → Nat → Bool) : List (Nat × Nat) :=
  process_pdfs_from cs chunkOk 0 docs

/-- What `process_pdfs` (src/main.py lines 56-78) leaves behind: whether an
exception escaped to the caller, what the blanket `except` printed, and
what was written to the output file. -/
structure RunResult where
  raisedToCaller : Option String
  fatalLogged : Option String
  written : Option (List (Nat × Nat))
deriving DecidableEq

/-- `process_pdfs`: the whole body — document loop and the final
`save_merged_pdf` — runs inside one `try`; any exception, the final write
failure included, is caught by `except Exception` (lines 75-76), printed as
a fatal error, and never re-raised. -/
def process_pdfs (cs : Nat) (docs : List Doc) (chunkOk : Nat → Nat → Bool)
    (save : List (Nat × Nat) → Except String Unit) : RunResult :=
  let pages := process_pdfs_pages cs docs chunkOk
  match save pages with
  | .ok _ =>
      { raisedToCaller := none, fatalLogged := none, written := some pages }
  | .error e =>
      { raisedToCaller := none, fatalLogged := some ("fatal error: " ++ e),
        written := none }

/-- C8 counterexample: with a failing final write (`"disk full"`), the
batch run returns normally — the failure is caught by the top-level handler
and logged, not raised to the caller. -/
theorem C8_counterexample :
    (process_pdfs 4 [⟨true, 3⟩] (fun _ _ => true)
        (fun _ => .error "disk full")).raisedToCaller = none ∧
    (process_pdfs 4 [⟨true, 3⟩] (fun _ _ => true)
        (fun _ => .error "disk full")).fatalLogged =
      some "fatal error: disk full" ∧
    (process_pdfs 4 [⟨true, 3⟩] (fun _ _ => true)
        (fun _ => .error "disk full")).written = none :=
  ⟨rfl, rfl, rfl⟩

/-- C8 (amended): a failure while writing the final merged output ends the
run (nothing is written) but is absorbed by the batch operation's blanket
exception handler — logged as a fatal error, never raised to the caller —
exactly like per-document and per-chunk failures; only a successful write
produces the output. -/
theorem C8_write_failure_absorbed (cs : Nat) (docs : List Doc)
    (chunkOk : Nat → Nat → Bool)
    (save : List (Nat × Nat) → Except String Unit) :
    (process_pdfs cs docs chunkOk save).raisedToCaller = none ∧
    (∀ e, save (process_pdfs_pages cs docs chunkOk) = .error e →
      (process_pdfs cs docs chunkOk save).fatalLogged = some ("fatal error: " ++ e) ∧
      (process_pdfs cs docs chunkOk save).written = none) ∧
    (save (process_pdfs_pages cs docs chunkOk) = .ok () →
      (process_pdfs cs docs chunkOk save).written =
        some (process_pdfs_pages cs docs chunkOk)) := by
  refine ⟨?_, ?_, ?_⟩
  · simp only [process_pdfs]
    rcases save (process_pdfs_pages cs docs chunkOk) with _ | e <;> rfl
  · intro e he
    simp only [process_pdfs]
    rw [he]
    exact ⟨rfl, rfl⟩
  · intro he
    simp only [process_pdfs]
    rw [he]

/-- C8 witness: at a failing save the logged message and missing output are
as the theorem states. -/
theorem C8_write_failure_absorbed_witness :
    ((fun _ : List (Nat × Nat) => (.error "disk full" : Except String Unit))
        (process_pdfs_pages 4 [⟨true, 3⟩] (fun _ _ => true)) = .error "disk full") ∧
    ((process_pdfs 4 [⟨true, 3⟩] (fun _ _ => true)
        (fun _ => .error "disk full")).fatalLogged = some ("fatal error: " ++ "disk full") ∧
      (process_pdfs 4 [⟨true, 3⟩] (fun _ _ => true)
        (fun _ => .error "disk full")).written = none) :=
  ⟨rfl, (C8_write_failure_absorbed 4 [⟨true, 3⟩] (fun _ _ => true)
    (fun _ => .error "disk full")).2.1 "disk full" rfl⟩

theorem filterMap_if_map_snd (d : Nat) (ok : Nat → Bool) (l : List Nat) :
    ((l.map fun s => if ok s then some (d, s) else none).filterMap id).map Prod.snd =
      l.filter ok := by
  induction l with
  | nil => rfl
  | cons a t ih =>
      simp only [List.filterMap_map, Function.id_comp] at ih
      cases h : ok a <;>
        simp [List.filter_cons, h, List.filterMap_map, Function.id_comp, ih]

theorem filterMap_if_fst (d : Nat) (ok : Nat → Bool) (l : List Nat) :
    ∀ p ∈ (l.map fun s => if ok s then some (d, s) else none).filterMap id, p.1 = d := by
  intro p hp
  rcases List.mem_filterMap.1 hp with ⟨o, ho, hid⟩
  rcases List.mem_map.1 ho with ⟨s, _, hif⟩
  by_cases h : ok s
  · rw [if_pos h] at hif
    rw [← hif] at hid
    cases hid
    rfl
  · rw [if_neg h] at hif
    rw [← hif] at hid
    cases hid

theorem process_pdf_file_pages_fst (cs d : Nat) (doc : Doc) (ok : Nat → Bool) :
    ∀ p ∈ process_pdf_file_pages cs d doc ok, p.1 = d := by
  intro p hp
  by_cases h1 : doc.readable = false
  · simp [process_pdf_file_pages, h1] at hp
  · by_cases h2 : doc.pageCount = 0
    · simp [process_pdf_file_pages, h1, h2] at hp
    · simp only [process_pdf_file_pages, if_neg h1, if_neg h2] at hp
      exact filterMap_if_fst d ok _ p hp

theorem process_pdf_file_pages_map_snd (cs d : Nat) (doc : Doc) (ok : Nat → Bool)
    (h1 : doc.readable = true) (h2 : 0 < doc.pageCount) :
    (process_pdf_file_pages cs d doc ok).map Prod.snd =
      (chunkStarts doc.pageCount cs).filter ok := by
  simp only [process_pdf_file_pages, h1, if_neg (by omega : ¬ doc.pageCount = 0)]
  simp only [Bool.true_eq_false, if_false]
  exact filterMap_if_map_snd d ok _

theorem process_pdf_file_pages_skip (cs d : Nat) (doc : Doc) (ok : Nat → Bool)
    (h : doc.readable = false ∨ doc.pageCount = 0) :
    process_pdf_file_pages cs d doc ok = [] := by
  rcases h with h | h
  · simp [process_pdf_file_pages, h]
  · by_cases h1 : doc.readable = false
    · simp [process_pdf_file_pages, h1]
    · simp [process_pdf_file_pages, h1, h]

theorem chunkStarts_length (t cs : Nat) :
    (chunkStarts t cs).length = numChunks t cs := by
  simp [chunkStarts]

theorem chunkStarts_pairwise (t cs : Nat) (hcs : 1 ≤ cs) :
    (chunkStarts t cs).Pairwise (· < ·) := by
  rw [chunkStarts, List.pairwise_map]
  exact (List.pairwise_lt_range _).imp
    (fun h => Nat.mul_lt_mul_of_pos_right h (by omega))

theorem process_pdf_file_pages_pairwise_snd (cs d : Nat) (doc : Doc)
    (ok : Nat → Bool) (hcs : 1 ≤ cs) :
    (process_pdf_file_pages cs d doc ok).Pairwise (fun p q => p.2 < q.2) := by
  by_cases h1 : doc.readable = true
  · by_cases h2 : 0 < doc.pageCount
    · rw [← List.pairwise_map]
      rw [process_pdf_file_pages_map_snd cs d doc ok h1 h2]
      exact (chunkStarts_pairwise doc.pageCount cs hcs).sublist (List.filter_sublist _)
    · rw [process_pdf_file_pages_skip cs d doc ok (Or.inr (by omega))]
      exact List.Pairwise.nil
  · rw [process_pdf_file_pages_skip cs d doc ok
      (Or.inl (by revert h1; cases doc.readable <;> simp))]
    exact List.Pairwise.nil

theorem process_pdf_file_pages_length_eq (cs d : Nat) (doc : Doc)
    (ok : Nat → Bool) (h1 : doc.readable = true) (h2 : 0 < doc.pageCount) :
    (process_pdf_file_pages cs d doc ok).length =
      ((chunkStarts doc.pageCount cs).filter ok).length := by
  rw [← process_pdf_file_pages_map_snd cs d doc ok h1 h2, List.length_map]

theorem filter_length_sub (p : Nat → Bool) (l : List Nat) :
    (l.filter p).length = l.length - (l.filter (fun s => ! p s)).length := by
  have hperm := (List.filter_append_perm p l).length_eq
  rw [List.length_append] at hperm
  omega

theorem process_pdfs_from_fst_ge (cs : Nat) (chunkOk : Nat → Nat → Bool) :
    ∀ (docs : List Doc) (d0 : Nat) (p : Nat × Nat),
      p ∈ process_pdfs_from cs chunkOk d0 docs → d0 ≤ p.1 := by
  intro docs
  induction docs with
  | nil => intro d0 p hp; simp [process_pdfs_from] at hp
  | cons doc rest ih =>
      intro d0 p hp
      rw [process_pdfs_from] at hp
      rcases List.mem_append.1 hp with h | h
      · rw [process_pdf_file_pages_fst cs d0 doc (chunkOk d0) p h]
      · have := ih (d0 + 1) p h
        omega

theorem process_pdfs_from_pairwise (cs : Nat) (chunkOk : Nat → Nat → Bool)
    (hcs : 1 ≤ cs) :
    ∀ (docs : List Doc) (d0 : Nat),
      (process_pdfs_from cs chunkOk d0 docs).Pairwise
        (fun p q => p.1 < q.1 ∨ (p.1 = q.1 ∧ p.2 < q.2)) := by
  intro docs
  induction docs with
  | nil => intro d0; exact List.Pairwise.nil
  | cons doc rest ih =>
      intro d0
      rw [process_pdfs_from]
      refine List.pairwise_append.2 ⟨?_, ih (d0 + 1), ?_⟩
      · refine (process_pdf_file_pages_pairwise_snd cs d0 doc (chunkOk d0) hcs).imp_of_mem
          ?_
        intro p q hp hq hlt
        right
        exact ⟨by rw [process_pdf_file_pages_fst cs d0 doc (chunkOk d0) p hp,
          process_pdf_file_pages_fst cs d0 doc (chunkOk d0) q hq], hlt⟩
      · intro p hp q hq
        left
        have h1 := process_pdf_file_pages_fst cs d0 doc (chunkOk d0) p hp
        have h2 := process_pdfs_from_fst_ge cs chunkOk rest (d0 + 1) q hq
        omega

theorem process_pdfs_from_filter (cs : Nat) (chunkOk : Nat → Nat → Bool) :
    ∀ (docs : List Doc) (d0 j : Nat) (doc : Doc), docs[j]? = some doc →
      (process_pdfs_from cs chunkOk d0 docs).filter
          (fun p => decide (p.1 = d0 + j)) =
        process_pdf_file_pages cs (d0 + j) doc (chunkOk (d0 + j)) := by
  intro docs
  induction docs with
  | nil => intro d0 j doc h; simp at h
  | cons doc0 rest ih =>
      intro d0 j doc h
      rw [process_pdfs_from, List.filter_append]
      cases j with
      | zero =>
          simp only [List.getElem?_cons_zero, Option.some.injEq] at h
          subst h
          have hleft : (process_pdf_file_pages cs d0 doc0 (chunkOk d0)).filter
              (fun p => decide (p.1 = d0 + 0)) =
              process_pdf_file_pages cs d0 doc0 (chunkOk d0) := by
            refine List.filter_eq_self.2 ?_
            intro p hp
            have := process_pdf_file_pages_fst cs d0 doc0 (chunkOk d0) p hp
            simp [this]
          have hright : (process_pdfs_from cs chunkOk (d0 + 1) rest).filter
              (fun p => decide (p.1 = d0 + 0)) = [] := by
            refine List.filter_eq_nil_iff.2 ?_
            intro p hp
            have := process_pdfs_from_fst_ge cs chunkOk rest (d0 + 1) p hp
            simp only [decide_eq_true_eq]
            omega
          rw [hleft, hright, List.append_nil]
          simp
      | succ j =>
          simp only [List.getElem?_cons_succ] at h
          have hleft : (process_pdf_file_pages cs d0 doc0 (chunkOk d0)).filter
              (fun p => decide (p.1 = d0 + (j + 1))) = [] := by
            refine List.filter_eq_nil_iff.2 ?_
            intro p hp
            have := process_pdf_file_pages_fst cs d0 doc0 (chunkOk d0) p hp
            simp only [decide_eq_true_eq]
            omega
          have harith : d0 + (j + 1) = (d0 + 1) + j := by omega
          rw [hleft, List.nil_append, harith]
          exact ih (d0 + 1) j doc h

theorem process_pdfs_from_length (cs : Nat) (chunkOk : Nat → Nat → Bool) :
    ∀ (docs : List Doc) (d0 : Nat),
      (process_pdfs_from cs chunkOk d0 docs).length =
        ((List.range docs.length).map fun j =>
          (process_pdf_file_pages cs (d0 + j) (docs.getD j ⟨true, 0⟩)
            (chunkOk (d0 + j))).length).sum := by
  intro docs
  induction docs with
  | nil => intro d0; rfl
  | cons doc0 rest ih =>
      intro d0
      rw [process_pdfs_from, List.length_append, List.length_cons,
        List.range_succ_eq_map, List.map_cons, List.sum_cons, List.map_map]
      have hcongr : ∀ j ∈ List.range rest.length,
          ((fun j => (process_pdf_file_pages cs (d0 + j) ((doc0 :: rest).getD j ⟨true, 0⟩)
            (chunkOk (d0 + j))).length) ∘ Nat.succ) j =
          (fun j => (process_pdf_file_pages cs ((d0 + 1) + j) (rest.getD j ⟨true, 0⟩)
            (chunkOk ((d0 + 1) + j))).length) j := by
        intro j _
        have harith : d0 + (j + 1) = (d0 + 1) + j := by omega
        simp only [Function.comp_apply, Nat.succ_eq_add_one, List.getD]
        rw [harith]
        simp
      rw [List.map_congr_left hcongr, ← ih (d0 + 1)]
      simp [List.getD]

/-- C9: the accumulated output is ordered by document index first and chunk
start second (concurrent chunk completion cannot reorder it — `pool.map`
returns results in argument order); document `j`'s pages are exactly its
successful chunks in chunk order (an unreadable or empty document, or a
failed chunk, contributes nothing without aborting the batch); each
readable document contributes `numChunks = ceil(pageCount/cs)` minus its
soft-failed chunks pages; and the total page count is the sum of the
per-document counts. -/
theorem C9_output_order_and_count (cs : Nat) (docs : List Doc)
    (chunkOk : Nat → Nat → Bool) (hcs : 1 ≤ cs) :
    (process_pdfs_pages cs docs chunkOk).Pairwise
      (fun p q => p.1 < q.1 ∨ (p.1 = q.1 ∧ p.2 < q.2)) ∧
    (∀ (j : Nat) (doc : Doc), docs[j]? = some doc →
      ((process_pdfs_pages cs docs chunkOk).filter
          (fun p => decide (p.1 = j))).map Prod.snd =
        if doc.readable = true ∧ 0 < doc.pageCount
        then (chunkStarts doc.pageCount cs).filter (chunkOk j) else []) ∧
    (∀ (j : Nat) (doc : Doc), docs[j]? = some doc → doc.readable = true →
      0 < doc.pageCount →
      ((process_pdfs_pages cs docs chunkOk).filter
          (fun p => decide (p.1 = j))).length =
        numChunks doc.pageCount cs -
          ((chunkStarts doc.pageCount cs).filter (fun s => ! chunkOk j s)).length) ∧
    (∀ t : Nat, t ≤ cs * numChunks t cs ∧
      ∀ k : Nat, t ≤ cs * k → numChunks t cs ≤ k) ∧
    (process_pdfs_pages cs docs chunkOk).length =
      ((List.range docs.length).map fun j =>
        (process_pdf_file_pages cs j (docs.getD j ⟨true, 0⟩)
          (chunkOk j)).length).sum := by
  have hfilter : ∀ (j : Nat) (doc : Doc), docs[j]? = some doc →
      (process_pdfs_pages cs docs chunkOk).filter (fun p => decide (p.1 = j)) =
        process_pdf_file_pages cs j doc (chunkOk j) := by
    intro j doc h
    have := process_pdfs_from_filter cs chunkOk docs 0 j doc h
    simpa using this
  refine ⟨process_pdfs_from_pairwise cs chunkOk hcs docs 0, ?_, ?_, ?_, ?_⟩
  · intro j doc h
    rw [hfilter j doc h]
    by_cases h1 : doc.readable = true
    · by_cases h2 : 0 < doc.pageCount
      · rw [if_pos ⟨h1, h2⟩]
        exact process_pdf_file_pages_map_snd cs j doc (chunkOk j) h1 h2
      · rw [if_neg (by tauto),
          process_pdf_file_pages_skip cs j doc (chunkOk j) (Or.inr (by omega))]
        rfl
    · rw [if_neg (by tauto), process_pdf_file_pages_skip cs j doc (chunkOk j)
        (Or.inl (by revert h1; cases doc.readable <;> simp))]
      rfl
  · intro j doc h h1 h2
    rw [hfilter j doc h, process_pdf_file_pages_length_eq cs j doc (chunkOk j) h1 h2,
      filter_length_sub, chunkStarts_length]
  · intro t
    have := ceil_div_spec t cs hcs
    exact this
  · have := process_pdfs_from_length cs chunkOk docs 0
    simpa using this

/-- C9 witness: three readable documents of 4, 1 and 9 pages at
`pagesPerSheet = 4` with no chunk failures satisfy every stated property
(per-document counts 1, 1, 3 — total 5). -/
theorem C9_output_order_and_count_witness :
    1 ≤ 4 ∧
    ((process_pdfs_pages 4 [⟨true, 4⟩, ⟨true, 1⟩, ⟨true, 9⟩]
        (fun _ _ => true)).Pairwise
      (fun p q => p.1 < q.1 ∨ (p.1 = q.1 ∧ p.2 < q.2)) ∧
    (∀ (j : Nat) (doc : Doc),
        ([⟨true, 4⟩, ⟨true, 1⟩, ⟨true, 9⟩] : List Doc)[j]? = some doc →
      ((process_pdfs_pages 4 [⟨true, 4⟩, ⟨true, 1⟩, ⟨true, 9⟩]
          (fun _ _ => true)).filter
          (fun p => decide (p.1 = j))).map Prod.snd =
        if doc.readable = true ∧ 0 < doc.pageCount
        then (chunkStarts doc.pageCount 4).filter (fun _ => true) else []) ∧
    (∀ (j : Nat) (doc : Doc),
        ([⟨true, 4⟩, ⟨true, 1⟩, ⟨true, 9⟩] : List Doc)[j]? = some doc →
        doc.readable = true → 0 < doc.pageCount →
      ((process_pdfs_pages 4 [⟨true, 4⟩, ⟨true, 1⟩, ⟨true, 9⟩]
          (fun _ _ => true)).filter
          (fun p => decide (p.1 = j))).length =
        numChunks doc.pageCount 4 -
          ((chunkStarts doc.pageCount 4).filter (fun _ => ! true)).length) ∧
    (∀ t : Nat, t ≤ 4 * numChunks t 4 ∧
      ∀ k : Nat, t ≤ 4 * k → numChunks t 4 ≤ k) ∧
    (process_pdfs_pages 4 [⟨true, 4⟩, ⟨true, 1⟩, ⟨true, 9⟩]
        (fun _ _ => true)).length =
      ((List.range ([⟨true, 4⟩, ⟨true, 1⟩, ⟨true, 9⟩] : List Doc).length).map fun j =>
        (process_pdf_file_pages 4 j
          (([⟨true, 4⟩, ⟨true, 1⟩, ⟨true, 9⟩] : List Doc).getD j ⟨true, 0⟩)
          (fun _ => true)).length).sum) :=
  ⟨by decide, C9_output_order_and_count 4 [⟨true, 4⟩, ⟨true, 1⟩, ⟨true, 9⟩]
    (fun _ _ => true) (by decide)⟩

/-- C10: every chunk built by `process_pdf_file` has length
`end - start ≤ pagesPerSheet`, the layout for `pagesPerSheet` satisfies
`cols * rows ≥ pagesPerSheet`, and hence the truncation guard of
`_process_chunk` never fires on pipeline-generated chunks: every page of
the chunk is merged, none silently dropped. -/
theorem C10_no_truncation (pps total : Nat) (hpps : 1 ≤ pps) :
    ∀ st ∈ chunkStarts total pps,
      min (st + pps) total - st ≤ pps ∧
      st < total ∧
      ∀ cols rows : Nat, _calculate_layout (pps : Int) = .ok (cols, rows) →
        pps ≤ cols * rows ∧
        ∀ {α : Type} (pages : List α) (w h sx sy pv : ℚ),
          pages.length = total →
          (_process_chunk pages st (min (st + pps) total) w h cols rows
            sx sy pv).merges.length = min (st + pps) total - st ∧
          (_process_chunk pages st (min (st + pps) total) w h cols rows
            sx sy pv).merges.map Prod.fst =
            (pages.drop st).take (min (st + pps) total - st) := by
  intro st hst
  rw [chunkStarts] at hst
  rcases List.mem_map.1 hst with ⟨i, hi, rfl⟩
  have hiN : i < numChunks total pps := List.mem_range.1 hi
  have htot : 1 ≤ total := by
    rcases Nat.eq_zero_or_pos total with rfl | hpos
    · have : numChunks 0 pps = 0 := by
        simp only [numChunks, Nat.zero_add]
        exact Nat.div_eq_of_lt (by omega)
      omega
    · exact hpos
  have hstlt : i * pps < total := by
    have h1 : (i + 1) * pps ≤ numChunks total pps * pps :=
      Nat.mul_le_mul_right pps (by omega)
    have h2 : numChunks total pps * pps ≤ total + pps - 1 :=
      Nat.div_mul_le_self (total + pps - 1) pps
    rw [Nat.succ_mul] at h1
    generalize i * pps = a at h1 ⊢
    generalize numChunks total pps * pps = b at h1 h2
    omega
  refine ⟨by omega, hstlt, ?_⟩
  intro cols rows hlay
  obtain ⟨c', r', hok, hc1, hr1, _, hcr, _⟩ :=
    calculate_layout_ok (pps : Int) (by exact_mod_cast hpps)
  rw [hok] at hlay
  have hpair : c' = cols ∧ r' = rows := by
    have := Except.ok.inj hlay
    exact ⟨congrArg Prod.fst this, congrArg Prod.snd this⟩
  obtain ⟨rfl, rfl⟩ := hpair
  have hcap : pps ≤ c' * r' := by
    have htn : ((pps : Int)).toNat = pps := Int.toNat_natCast pps
    rw [htn] at hcr
    exact hcr
  refine ⟨hcap, ?_⟩
  intro α pages w h sx sy pv hlen
  have hchunklen : ((pages.drop (i * pps)).take
      (min (i * pps + pps) total - i * pps)).length =
      min (i * pps + pps) total - i * pps := by
    rw [List.length_take, List.length_drop, hlen]
    omega
  have hposlen : (_generate_positions c' r' w h).length = c' * r' := by
    rw [generate_positions_length]; ring
  constructor
  · simp only [_process_chunk, List.length_map, List.length_zip]
    rw [hchunklen, hposlen]
    generalize hcr' : c' * r' = q at hcap
    omega
  · rw [process_chunk_map_fst, hposlen]
    refine List.take_of_length_le ?_
    rw [hchunklen]
    generalize c' * r' = q at hcap
    omega

/-- C10 witness: `pagesPerSheet = 4`, a 9-page document, last chunk
`[8, 9)` of length 1: the layout is `(2, 2)`, capacity 4, and the chunk's
single page is merged with nothing dropped. -/
theorem C10_no_truncation_witness :
    (1 ≤ 4 ∧ 8 ∈ chunkStarts 9 4 ∧
      _calculate_layout ((4 : Nat) : Int) = .ok (2, 2) ∧
      (List.range 9).length = 9) ∧
    (min (8 + 4) 9 - 8 ≤ 4 ∧
     8 < 9 ∧
     4 ≤ 2 * 2 ∧
     ((_process_chunk (List.range 9) 8 (min (8 + 4) 9) (1:ℚ) 1 2 2
        (1/2) (1/2) 0).merges.length = min (8 + 4) 9 - 8 ∧
      (_process_chunk (List.range 9) 8 (min (8 + 4) 9) (1:ℚ) 1 2 2
        (1/2) (1/2) 0).merges.map Prod.fst =
        ((List.range 9).drop 8).take (min (8 + 4) 9 - 8))) := by
  have hmem : 8 ∈ chunkStarts 9 4 := by decide
  have hlay : _calculate_layout ((4 : Nat) : Int) = .ok (2, 2) := by decide
  have hmain := C10_no_truncation 4 9 (by decide) 8 hmem
  obtain ⟨hle, hlt, hrest⟩ := hmain
  obtain ⟨hcap, hmerge⟩ := hrest 2 2 hlay
  exact ⟨⟨by decide, hmem, hlay, by decide⟩,
    ⟨hle, hlt, hcap, hmerge (List.range 9) 1 1 (1/2) (1/2) 0 (by decide)⟩⟩

end PDFMultimerger
